import Mathlib

/-!
Verification of the page-caching core of JigaoLuo/CMU15-445-2017:
the LRU replacer (`src/buffer/lru_replacer.cpp`), the extendible hash
directory (`src/hash/extendible_hash.cpp`), and the buffer pool manager
(`src/buffer/buffer_pool_manager.cpp`), shallowly embedded as pure
state-passing functions.

Modelling conventions, fixed for the whole development:

* C++ `assert(e)` statements are modelled as observable aborts: an
  operation containing asserts returns `Option`, and `none` means some
  assert's condition evaluated to false (the call does not complete).
  Asserts on an operation's raw argument (`assert(page_id !=
  INVALID_PAGE_ID)` at function entry) appear as the corresponding guard
  in the model.
* Latches (`std::shared_mutex`, `lock_guard`) are erased: the model is
  the sequential semantics of each call.
* Machine integers are modelled as `Int`/`Nat`; all quantities involved
  (pin counts, depths, sizes) stay far from any overflow boundary in the
  scenarios considered.
* `std::hash<K>` is a parameter `hash : Nat → Nat` of the extendible-hash
  model (keys are `Nat`).  The repository instantiates the template at
  `K = int` and `K = Page*`; for `int`, libstdc++'s `std::hash` is the
  identity, so concrete test scenarios use `hash = id`.
* The page image (`char data_[PAGE_SIZE]`) is an opaque blob modelled as
  a `Nat`; `0` stands for the all-zero page produced by `ResetMemory`.
-/

set_option autoImplicit false

namespace CMUDB

/-! ## Bit helpers

`GET_LAST_N_BITS(value, n)` in `src/include/hash/extendible_hash.h` masks
with `LAST_N_BITS_MASK[n] = 2^n - 1` (for `0 ≤ n ≤ 31`, with entry 0 being
the zero mask), i.e. it is `value mod 2^n`.  `GET_LAST_N_TH_BIT(value, n)`
masks with `LAST_N_TH_BIT_MASK[n] = 2^(n-1)` for `n ≥ 1` and with `0` for
`n = 0`.  We model the two mask tables by the arithmetic the header's
comments give for them. -/

/-- `GET_LAST_N_BITS value n = value & (2^n - 1)`. -/
def lastNBits (v n : Nat) : Nat := v % 2 ^ n

/-- `GET_LAST_N_TH_BIT value n = value & (1 <<< (n-1))`, as a Bool
(the C++ code only ever tests the result against 0).  For `n = 0` the
mask table holds `0`, so the test is always false. -/
def testBitN (v n : Nat) : Bool := n ≠ 0 && (v / 2 ^ (n - 1)) % 2 = 1

/-! ## LRU replacer (`src/buffer/lru_replacer.cpp`)

State: `lru_list` (front = most recently inserted) plus the unordered map
`ht` from element to list node.  The map is kept in lockstep with the
list (`assert(ht.size() == lru_list.size())` at every entry point, and
`got == ht.end()` agrees with list membership), so the model carries the
list alone and reads membership off it. -/

/-- `LRUReplacer::Insert`: if absent, `emplace_front`; if present, splice
the existing node to the front. -/
def lruInsert {α : Type} [DecidableEq α] (l : List α) (v : α) : List α :=
  if v ∈ l then v :: l.erase v else v :: l

/-- `LRUReplacer::Victim`: pop from the back of the list; `none` when
empty.  Returns the victim and the remaining list. -/
def lruVictim {α : Type} (l : List α) : Option (α × List α) :=
  match l.getLast? with
  | none => none
  | some v => some (v, l.dropLast)

/-- `LRUReplacer::Erase`: remove `v` if present, reporting whether a
removal occurred. -/
def lruErase {α : Type} [DecidableEq α] (l : List α) (v : α) : Bool × List α :=
  if v ∈ l then (true, l.erase v) else (false, l)

/-- `LRUReplacer::Size`. -/
def lruSize {α : Type} (l : List α) : Nat := l.length

/-- The replacer contents after a chronological sequence of `Insert`
calls, starting from a freshly constructed (empty) replacer. -/
def lruRun {α : Type} [DecidableEq α] (xs : List α) : List α :=
  xs.foldl lruInsert []

/-- Specification-side description of the list: the distinct elements of
`r`, keeping the first occurrence of each. -/
def dedupFirst {α : Type} [DecidableEq α] : List α → List α
  | [] => []
  | x :: r => x :: dedupFirst (r.filter (· ≠ x))
  termination_by l => l.length
  decreasing_by
    simp only [List.length_cons]
    exact Nat.lt_succ_of_le (List.length_filter_le _ r)

theorem mem_dedupFirst {α : Type} [DecidableEq α] (r : List α) (a : α) :
    a ∈ dedupFirst r ↔ a ∈ r := by
  induction r using dedupFirst.induct with
  | case1 => simp [dedupFirst]
  | case2 x t ih =>
    rw [dedupFirst]
    by_cases hax : a = x
    · subst hax; simp
    · simp only [List.mem_cons, hax, false_or]
      rw [ih]
      simp [List.mem_filter, hax]

theorem dedupFirst_eq_nil_iff {α : Type} [DecidableEq α] (r : List α) :
    dedupFirst r = [] ↔ r = [] := by
  cases r with
  | nil => simp [dedupFirst]
  | cons x t => simp [dedupFirst]

theorem nodup_dedupFirst {α : Type} [DecidableEq α] (r : List α) :
    (dedupFirst r).Nodup := by
  induction r using dedupFirst.induct with
  | case1 => simp [dedupFirst]
  | case2 x t ih =>
    rw [dedupFirst]
    refine List.nodup_cons.2 ⟨fun hx => ?_, ih⟩
    have := (mem_dedupFirst _ x).1 hx
    simp [List.mem_filter] at this

theorem filter_dedupFirst_of_not_mem {α : Type} [DecidableEq α]
    (r : List α) (x : α) (hx : x ∉ r) :
    (dedupFirst r).filter (· ≠ x) = dedupFirst r := by
  apply List.filter_eq_self.2
  intro a ha
  have : a ∈ r := (mem_dedupFirst _ _).1 ha
  simp only [ne_eq, decide_not, Bool.not_eq_eq_eq_not, Bool.not_true,
    decide_eq_false_iff_not]
  rintro rfl
  exact hx this

theorem dedupFirst_filter {α : Type} [DecidableEq α] (r : List α) (x : α) :
    dedupFirst (r.filter (· ≠ x)) = (dedupFirst r).filter (· ≠ x) := by
  induction r using dedupFirst.induct with
  | case1 => simp [dedupFirst]
  | case2 y t ih =>
    by_cases hyx : y = x
    · subst hyx
      have hy : (y :: t).filter (· ≠ y) = t.filter (· ≠ y) := by simp
      calc dedupFirst ((y :: t).filter (· ≠ y))
          = dedupFirst (t.filter (· ≠ y)) := by rw [hy]
        _ = (dedupFirst (t.filter (· ≠ y))).filter (· ≠ y) :=
            (filter_dedupFirst_of_not_mem _ y (by simp [List.mem_filter])).symm
        _ = (dedupFirst (y :: t)).filter (· ≠ y) := by
            rw [dedupFirst]; simp [List.filter_cons]
    · have h1 : (y :: t).filter (· ≠ x) = y :: t.filter (· ≠ x) := by simp [hyx]
      rw [h1, dedupFirst, dedupFirst]
      have h2 : (y :: dedupFirst (t.filter (· ≠ y))).filter (· ≠ x)
          = y :: (dedupFirst (t.filter (· ≠ y))).filter (· ≠ x) := by simp [hyx]
      rw [h2, ← ih, List.filter_comm]

theorem lruInsert_eq_cons_filter {α : Type} [DecidableEq α]
    (l : List α) (x : α) (hl : l.Nodup) :
    lruInsert l x = x :: l.filter (· ≠ x) := by
  rw [lruInsert]
  by_cases hx : x ∈ l
  · rw [if_pos hx, hl.erase_eq_filter]
    congr 1
    apply List.filter_congr
    intro a _
    by_cases hax : a = x
    · subst hax; simp
    · simp [hax]
  · rw [if_neg hx]
    congr 1
    exact (List.filter_eq_self.2 fun a ha => by
      simp only [ne_eq, decide_not, Bool.not_eq_eq_eq_not, Bool.not_true,
        decide_eq_false_iff_not]
      rintro rfl
      exact hx ha).symm

theorem lruRun_eq_dedupFirst_reverse {α : Type} [DecidableEq α] (xs : List α) :
    lruRun xs = dedupFirst xs.reverse := by
  induction xs using List.reverseRecOn with
  | nil => simp [lruRun, dedupFirst]
  | append_singleton xs x ih =>
    have h1 : lruRun (xs ++ [x]) = lruInsert (lruRun xs) x := by
      rw [lruRun, lruRun, List.foldl_append, List.foldl_cons, List.foldl_nil]
    rw [h1, ih, List.reverse_append, List.reverse_singleton, List.singleton_append,
      dedupFirst, lruInsert_eq_cons_filter _ _ (nodup_dedupFirst _),
      dedupFirst_filter]

theorem lruRun_nodup {α : Type} [DecidableEq α] (xs : List α) :
    (lruRun xs).Nodup := by
  rw [lruRun_eq_dedupFirst_reverse]; exact nodup_dedupFirst _

theorem mem_lruRun {α : Type} [DecidableEq α] (xs : List α) (a : α) :
    a ∈ lruRun xs ↔ a ∈ xs := by
  rw [lruRun_eq_dedupFirst_reverse, mem_dedupFirst, List.mem_reverse]

/-- `indexOf` of two members of a filtered list is ordered the same way in
the original list: filtering preserves relative order. -/
theorem indexOf_le_indexOf_of_filter {α : Type} [DecidableEq α] (p : α → Bool) :
    ∀ (r : List α) (a b : α), a ∈ r.filter p → b ∈ r.filter p →
      (r.filter p).indexOf a ≤ (r.filter p).indexOf b → r.indexOf a ≤ r.indexOf b := by
  intro r
  induction r with
  | nil => intro a b ha _ _; simp at ha
  | cons h t ih =>
    intro a b ha hb hle
    by_cases hp : p h
    · rw [List.filter_cons_of_pos hp] at ha hb hle
      by_cases hha : h = a
      · subst hha
        rw [List.indexOf_cons_self]
        exact Nat.zero_le _
      · by_cases hhb : h = b
        · subst hhb
          rw [List.indexOf_cons_self, List.indexOf_cons_ne _ hha] at hle
          omega
        · have ha' : a ∈ t.filter p := by
            rcases List.mem_cons.1 ha with h1 | h1
            · exact absurd h1.symm hha
            · exact h1
          have hb' : b ∈ t.filter p := by
            rcases List.mem_cons.1 hb with h1 | h1
            · exact absurd h1.symm hhb
            · exact h1
          rw [List.indexOf_cons_ne _ hha, List.indexOf_cons_ne _ hhb] at hle
          rw [List.indexOf_cons_ne _ hha, List.indexOf_cons_ne _ hhb]
          exact Nat.succ_le_succ (ih a b ha' hb' (by omega))
    · rw [List.filter_cons_of_neg hp] at ha hb hle
      have hha : h ≠ a := by
        rintro rfl
        exact hp (List.of_mem_filter ha)
      have hhb : h ≠ b := by
        rintro rfl
        exact hp (List.of_mem_filter hb)
      rw [List.indexOf_cons_ne _ hha, List.indexOf_cons_ne _ hhb]
      exact Nat.succ_le_succ (ih a b ha hb hle)

/-- The last element of `dedupFirst r` is the member of `r` whose first
occurrence in `r` comes last: every member's first-occurrence index is at
most its. -/
theorem getLast?_cons_of_ne_nil {α : Type} (x : α) (l : List α) (h : l ≠ []) :
    (x :: l).getLast? = l.getLast? := by
  have := List.getLast?_append_of_ne_nil [x] h
  simpa using this

theorem indexOf_le_indexOf_getLast_dedupFirst {α : Type} [DecidableEq α] :
    ∀ (r : List α) (w g : α), w ∈ r → (dedupFirst r).getLast? = some g →
      r.indexOf w ≤ r.indexOf g := by
  intro r
  induction r using dedupFirst.induct with
  | case1 => intro w g hw _; simp at hw
  | case2 x t ih =>
    intro w g hw hg
    rw [dedupFirst] at hg
    by_cases ht : dedupFirst (t.filter (· ≠ x)) = []
    · rw [ht] at hg
      have hgx : x = g := by simpa using hg
      subst hgx
      have hfil : t.filter (· ≠ x) = [] := (dedupFirst_eq_nil_iff _).1 ht
      have htx : ∀ y ∈ t, y = x := by
        intro y hy
        by_contra hyg
        have : y ∈ t.filter (· ≠ x) := by
          simp [List.mem_filter, hy, hyg]
        rw [hfil] at this
        simp at this
      rcases List.mem_cons.1 hw with rfl | hw'
      · exact le_refl _
      · rw [htx w hw']
    · rw [getLast?_cons_of_ne_nil _ _ ht] at hg
      have hgmem : g ∈ t.filter (· ≠ x) :=
        (mem_dedupFirst _ _).1 (List.mem_of_mem_getLast? (Option.mem_def.2 hg))
      have hgx : g ≠ x := by
        have := List.mem_filter.1 hgmem
        simpa using this.2
      have hgt : g ∈ t := (List.mem_filter.1 hgmem).1
      rcases List.mem_cons.1 hw with rfl | hw'
      · rw [List.indexOf_cons_self]
        exact Nat.zero_le _
      · by_cases hwx : w = x
        · subst hwx
          rw [List.indexOf_cons_self]
          exact Nat.zero_le _
        · have hw'' : w ∈ t.filter (· ≠ x) := by
            simp [List.mem_filter, hw', hwx]
          have hfil : (t.filter (· ≠ x)).indexOf w ≤ (t.filter (· ≠ x)).indexOf g :=
            ih w g hw'' hg
          have hle : t.indexOf w ≤ t.indexOf g :=
            indexOf_le_indexOf_of_filter _ t w g hw'' hgmem hfil
          rw [List.indexOf_cons_ne _ (fun hc => hwx hc.symm),
            List.indexOf_cons_ne _ (fun hc => hgx hc.symm)]
          exact Nat.succ_le_succ hle

/-- C9: LRU replacer behaviour.  `Insert(v)` on a present element moves it
to the most-recently-used end (the list front) without changing `Size`, and
prepends (appends at the MRU end) otherwise; `Victim` removes and returns
the element of the current list whose most recent `Insert` happened
earliest among current members (formally: after any chronological insert
sequence `xs`, the victim maximises the index of its last occurrence
counted from the end of `xs`), returning `none` on an empty replacer; and
the concrete scenario: after inserting 1,2,3,4,5,6,1 three successive
`Victim` calls return 2, 3, 4 in that order. -/
theorem lru_replacer_C9 :
    (∀ (l : List Nat) (v : Nat), v ∈ l →
        lruSize (lruInsert l v) = lruSize l ∧ (lruInsert l v).head? = some v) ∧
    (∀ (l : List Nat) (v : Nat), v ∉ l → lruInsert l v = v :: l) ∧
    lruVictim ([] : List Nat) = none ∧
    (∀ (xs : List Nat) (v : Nat) (rest : List Nat),
        lruVictim (lruRun xs) = some (v, rest) →
        v ∈ xs ∧ rest = (lruRun xs).dropLast ∧
        ∀ w ∈ lruRun xs, xs.reverse.indexOf w ≤ xs.reverse.indexOf v) ∧
    (lruVictim (lruRun [1, 2, 3, 4, 5, 6, 1]) = some (2, [1, 6, 5, 4, 3]) ∧
      lruVictim [1, 6, 5, 4, 3] = some (3, [1, 6, 5, 4]) ∧
      lruVictim [1, 6, 5, 4] = some (4, [1, 6, 5])) := by
  refine ⟨?_, ?_, rfl, ?_, by decide, by decide, by decide⟩
  · intro l v hv
    constructor
    · rw [lruSize, lruSize, lruInsert, if_pos hv, List.length_cons,
        List.length_erase_of_mem hv]
      have : 0 < l.length := List.length_pos.2 (List.ne_nil_of_mem hv)
      omega
    · rw [lruInsert, if_pos hv, List.head?_cons]
  · intro l v hv
    rw [lruInsert, if_neg hv]
  · intro xs v rest hvic
    rw [lruVictim] at hvic
    rcases hlast : (lruRun xs).getLast? with _ | g
    · rw [hlast] at hvic; exact absurd hvic (by simp)
    · rw [hlast] at hvic
      simp only [Option.some.injEq, Prod.mk.injEq] at hvic
      obtain ⟨rfl, rfl⟩ := hvic
      have hmem : g ∈ lruRun xs := List.mem_of_mem_getLast? (Option.mem_def.2 hlast)
      refine ⟨(mem_lruRun xs g).1 hmem, rfl, ?_⟩
      intro w hw
      have hw' : w ∈ xs.reverse := List.mem_reverse.2 ((mem_lruRun xs w).1 hw)
      have hg' : (dedupFirst xs.reverse).getLast? = some g := by
        rw [← lruRun_eq_dedupFirst_reverse]; exact hlast
      exact indexOf_le_indexOf_getLast_dedupFirst xs.reverse w g hw' hg'

theorem lru_replacer_C9_witness :
    (lruSize (lruInsert [3, 7] 7) = lruSize [3, 7] ∧
      (lruInsert [3, 7] 7).head? = some 7) ∧
    lruInsert [9, 4] 5 = [5, 9, 4] ∧
    ((1 : Nat) ∈ [1, 2, 3] ∧ [3, 2] = (lruRun [1, 2, 3]).dropLast ∧
      ∀ w ∈ lruRun [1, 2, 3],
        [1, 2, 3].reverse.indexOf w ≤ [1, 2, 3].reverse.indexOf 1) :=
  ⟨lru_replacer_C9.1 [3, 7] 7 (by decide),
   lru_replacer_C9.2.1 [9, 4] 5 (by decide),
   lru_replacer_C9.2.2.2.1 [1, 2, 3] 1 [3, 2] (by decide)⟩

/- Replication of the repository's `LRUReplacerTest.SampleTest`: sizes and
the victims after erasing. -/
example :
    lruSize (lruRun [1, 2, 3, 4, 5, 6, 1]) = 6 ∧
    lruErase [1, 6, 5] 4 = (false, [1, 6, 5]) ∧
    lruErase [1, 6, 5] 6 = (true, [1, 5]) ∧
    lruVictim [1, 5] = some (5, [1]) ∧
    lruVictim [1] = some (1, ([] : List Nat)) := by decide

/-! ## Extendible hash directory (`src/hash/extendible_hash.cpp`)

Keys and values are `Nat`; `std::hash<K>` is the explicit parameter
`hash`.  Buckets live in an arena (`buckets`), and the directory
(`bucketAddressTable`) holds arena indices, which models the aliasing of
`shared_ptr<Bucket>` entries: re-seating one slot's pointer is a `dir`
update, mutating a bucket through any slot is an arena update. -/

structure EHBucket where
  keys : List Nat
  vals : List Nat
  localDepth : Nat
  deriving DecidableEq, Repr, Inhabited

structure EH where
  bucketSize : Nat
  globalDepth : Nat
  numBuckets : Nat
  /-- the `size` member ("number of keys") that `GetSize` returns. -/
  sizeField : Nat
  buckets : List EHBucket
  dir : List Nat
  deriving DecidableEq, Repr, Inhabited

/-- `ExtendibleHash::ExtendibleHash(size_t size)`: the member initialisers
give `globalDepth = 0`, `numBuckets = 1`, `size = 0`; the constructor body
then allocates the first bucket, increments `numBuckets` (so it ends at
2), and seats the bucket in the one-slot directory. -/
def ehNew (sz : Nat) : EH :=
  { bucketSize := sz, globalDepth := 0, numBuckets := 1 + 1, sizeField := 0,
    buckets := [⟨[], [], 0⟩], dir := [0] }

/-- `GetBucket`: `bucketAddressTable[GET_LAST_N_BITS(HashKey(key), globalDepth)]`,
as an arena index. -/
def ehBucketIdxOf (hash : Nat → Nat) (s : EH) (k : Nat) : Nat :=
  s.dir.getD (lastNBits (hash k) s.globalDepth) 0

/-- `ExtendibleHash::Exists`: look the key up in its bucket; when present,
overwrite the stored value in place and report `true`. -/
def ehExists (hash : Nat → Nat) (s : EH) (k v : Nat) : Bool × EH :=
  let bidx := ehBucketIdxOf hash s k
  let b := s.buckets.getD bidx default
  if k ∈ b.keys then
    (true, { s with buckets :=
        s.buckets.set bidx { b with vals := b.vals.set (b.keys.indexOf k) v } })
  else (false, s)

/-- `keys[it] = keys.back(); keys.pop_back()` — the swap-with-last removal
used by `Remove` and by the split's rehash loop. -/
def swapRemove {α : Type} (l : List α) (i : Nat) : List α :=
  match l.getLast? with
  | none => l
  | some x => (l.set i x).dropLast

/-- `ExtendibleHash::Find` (no mutation). -/
def ehFind (hash : Nat → Nat) (s : EH) (k : Nat) : Option Nat :=
  let b := s.buckets.getD (ehBucketIdxOf hash s k) default
  if k ∈ b.keys then some (b.vals.getD (b.keys.indexOf k) 0) else none

/-- `ExtendibleHash::Remove`: swap-with-last removal of the key and its
value from the bucket; no directory change, `size` not touched. -/
def ehRemove (hash : Nat → Nat) (s : EH) (k : Nat) : Bool × EH :=
  let bidx := ehBucketIdxOf hash s k
  let b := s.buckets.getD bidx default
  if k ∈ b.keys then
    let i := b.keys.indexOf k
    (true, { s with buckets :=
        s.buckets.set bidx { b with keys := swapRemove b.keys i,
                                    vals := swapRemove b.vals i } })
  else (false, s)

/-- One iteration of the bucket-split body of `ExtendibleHash::Insert`
(lines 138–214): double the directory when `globalDepth == localDepth`,
raise bucket `j`'s depth, allocate bucket `z` (incrementing `numBuckets`),
re-point `iterations = max((globalDepth - localDepth_new) << 1, 1)` slots
starting at `(1 << oldDepth) + low-oldDepth-bits-of-hash(key)` with stride
`1 << newDepth`, rehash `j`'s records whose `newDepth`-th low bit is set
into `z` (in descending index order, by swap-with-last removal), and
either report the target bucket for the pending key (`some`) or report
that the target is still full and the `goto check` loop repeats
(`none`). -/
def ehSplitStep (hash : Nat → Nat) (s : EH) (k : Nat) : EH × Option Nat :=
  let bidx := ehBucketIdxOf hash s k
  let b := s.buckets.getD bidx default
  let lastL := lastNBits (lastNBits (hash k) s.globalDepth) b.localDepth
  let oldD := b.localDepth
  let s1 := if s.globalDepth = b.localDepth then
      { s with globalDepth := s.globalDepth + 1, dir := s.dir ++ s.dir }
    else s
  let newD := oldD + 1
  let zidx := s1.buckets.length
  let s2 := { s1 with
    buckets := s1.buckets.set bidx { b with localDepth := newD } ++ [EHBucket.mk [] [] newD],
    numBuckets := s1.numBuckets + 1 }
  let base := 2 ^ oldD + lastL
  let incr := 2 ^ newD
  let iters := max ((s2.globalDepth - newD) * 2) 1
  let dir2 := (List.range iters).foldl (fun (d : List Nat) i => d.set (base + i * incr) zidx) s2.dir
  let ms := ((List.range b.keys.length).filter
      (fun i => testBitN (hash (b.keys.getD i 0)) newD)).reverse
  let moved := ms.foldl
      (fun (p : (List Nat × List Nat) × (List Nat × List Nat)) i =>
        ((swapRemove p.1.1 i, swapRemove p.1.2 i),
         (p.2.1 ++ [p.1.1.getD i 0], p.2.2 ++ [p.1.2.getD i 0])))
      ((b.keys, b.vals), ([], []))
  let bks := (s2.buckets.set bidx ⟨moved.1.1, moved.1.2, newD⟩).set zidx ⟨moved.2.1, moved.2.2, newD⟩
  let s3 := { s2 with dir := dir2, buckets := bks }
  let tz := testBitN (hash k) newD
  if (ms = [] ∧ tz = false) ∨ ms.length + (if tz then 1 else 0) > s.bucketSize then
    (s3, none)
  else
    (s3, some (if tz then zidx else bidx))

/-- The `check:` loop of `ExtendibleHash::Insert`, with explicit fuel for
the `goto check` backedge; `none` means the fuel ran out (the loop did not
terminate within `fuel` iterations) or an assert failed.  The two asserts
at the loop head (`keys_j.size() == values_j.size()` and
`keys_j.size() <= bucketSize`) are the two guards. -/
def ehInsertLoop (hash : Nat → Nat) : Nat → EH → Nat → Nat → Option EH
  | 0, _, _, _ => none
  | fuel + 1, s, k, v =>
    let bidx := ehBucketIdxOf hash s k
    let b := s.buckets.getD bidx default
    if b.keys.length ≠ b.vals.length then none
    else if b.keys.length > s.bucketSize then none
    else if b.keys.length = s.bucketSize then
      match ehSplitStep hash s k with
      | (s', none) => ehInsertLoop hash fuel s' k v
      | (s', some t) =>
        let tb := s'.buckets.getD t default
        let tb2 := { tb with keys := tb.keys ++ [k], vals := tb.vals ++ [v] }
        some { s' with buckets := s'.buckets.set t tb2 }
    else
      let b2 := { b with keys := b.keys ++ [k], vals := b.vals ++ [v] }
      some { s with buckets := s.buckets.set bidx b2 }

/-- `ExtendibleHash::Insert`: overwrite in place when the key exists,
otherwise run the split-and-insert loop.  Note that neither path updates
the `size` member. -/
def ehInsert (hash : Nat → Nat) (fuel : Nat) (s : EH) (k v : Nat) : Option EH :=
  match ehExists hash s k v with
  | (true, s') => some s'
  | (false, _) => ehInsertLoop hash fuel s k v

/-- A chronological insert run from a freshly constructed table. -/
def ehRun (hash : Nat → Nat) (fuel sz : Nat) (kvs : List (Nat × Nat)) : Option EH :=
  kvs.foldl (fun os kv => os.bind fun s => ehInsert hash fuel s kv.1 kv.2)
    (some (ehNew sz))

/-- `GetGlobalDepth`. -/
def ehGetGlobalDepth (s : EH) : Nat := s.globalDepth

/-- `GetLocalDepth(bucket_id)`: depth of the bucket seated at directory
slot `bucket_id`. -/
def ehGetLocalDepth (s : EH) (slot : Nat) : Nat :=
  (s.buckets.getD (s.dir.getD slot 0) default).localDepth

/-- `GetNumBuckets`. -/
def ehGetNumBuckets (s : EH) : Nat := s.numBuckets

/-- `GetSize` (returns the `size` member). -/
def ehGetSize (s : EH) : Nat := s.sizeField

/-- The number of distinct buckets referenced by the directory. -/
def ehDistinctBuckets (s : EH) : Nat := s.dir.dedup.length

/-- The directory invariant of claim C2, as a decidable check:
the directory length is `2^globalDepth`; two slots reference the same
bucket exactly when they agree on the low `localDepth` bits of that
bucket; and every stored key hashes back to a slot referencing its
bucket. -/
def ehDirInvariantB (hash : Nat → Nat) (s : EH) : Bool :=
  (decide (s.dir.length = 2 ^ s.globalDepth)) &&
  ((List.range s.dir.length).all fun i =>
    (List.range s.dir.length).all fun j =>
      decide (s.dir.getD i 0 = s.dir.getD j 0) ==
        decide (lastNBits i (ehGetLocalDepth s i) = lastNBits j (ehGetLocalDepth s i))) &&
  ((List.range s.dir.length).all fun i =>
    (s.buckets.getD (s.dir.getD i 0) default).keys.all fun k =>
      decide (s.dir.getD (lastNBits (hash k) s.globalDepth) 0 = s.dir.getD i 0))

/-! ### List index helpers -/

theorem getD_set_ne {α : Type} (l : List α) (i j : Nat) (x d : α) (h : i ≠ j) :
    (l.set i x).getD j d = l.getD j d := by
  simp [List.getD_eq_getElem?_getD, List.getElem?_set_ne h]

theorem getD_set_self {α : Type} (l : List α) (i : Nat) (x d : α)
    (h : i < l.length) : (l.set i x).getD i d = x := by
  simp [List.getD_eq_getElem?_getD, List.getElem?_set_self, h]

theorem getD_append_left {α : Type} (l₁ l₂ : List α) (i : Nat) (d : α)
    (h : i < l₁.length) : (l₁ ++ l₂).getD i d = l₁.getD i d := by
  simp [List.getD_eq_getElem?_getD, List.getElem?_append_left h]

/-! ### Validation of the hash model against the repository's tests

These replicate `ExtendibleHashTest.SampleTest`, `BasicDepthTest` and the
geometry check of `ConcurrentRemoveTest` (all with `std::hash<int> = id`). -/

example :
    (ehRun id 100 2 [(1, 1), (2, 2), (3, 3), (4, 4), (5, 5), (6, 6), (7, 7),
        (8, 8), (9, 9)]).map
      (fun s => (ehGetGlobalDepth s, ehGetLocalDepth s 0, ehGetLocalDepth s 1,
        ehGetLocalDepth s 2, ehGetLocalDepth s 3, ehGetLocalDepth s 5)) =
      some (3, 2, 3, 2, 2, 3) := by decide

example :
    (ehRun id 100 2 [(6, 0), (10, 1), (14, 2)]).map
      (fun s => (ehGetGlobalDepth s,
        (List.range 8).map (ehGetLocalDepth s))) =
      some (3, [2, 1, 3, 1, 2, 1, 3, 1]) := by decide

example :
    (ehRun id 100 2 [(0, 0), (10, 10), (16, 16), (32, 32), (64, 64)]).map
      ehGetGlobalDepth = some 6 := by decide

example :
    (ehRun id 100 2 [(1, 1), (2, 2), (3, 3), (4, 4), (5, 5), (6, 6), (7, 7),
        (8, 8), (9, 9)]).bind (fun s => ehFind id s 9) = some 9 := by decide

/-- C2: the claimed extendible-hash directory invariant is violated by a
reachable insert sequence.  With `bucket_size = 1` and identity hash,
inserting 0, 1, 3, 7, 15, 31 drives the global depth to 5 while the
bucket holding key 0 stays at local depth 1; inserting 4 then splits that
bucket twice, and the re-pointing loop, which runs
`max(2*(globalDepth - newLocalDepth), 1)` iterations instead of covering
all `2^(globalDepth - newLocalDepth)` affected slots, leaves directory
slots 26 and 30 pointing at the depth-3 bucket whose low-3-bit tag is 0:
the invariant check evaluates to `false`.  Slots 24 and 26 reference the
same bucket of local depth 3 even though their low 3 bits differ
(0 vs 2). -/
theorem eh_dir_invariant_violated_C2 :
    (ehRun id 100 1 [(0, 0), (1, 1), (3, 3), (7, 7), (15, 15), (31, 31),
        (4, 4)]).map (ehDirInvariantB id) = some false ∧
    (ehRun id 100 1 [(0, 0), (1, 1), (3, 3), (7, 7), (15, 15), (31, 31),
        (4, 4)]).map
        (fun s => (s.dir.getD 24 0, s.dir.getD 26 0, ehGetLocalDepth s 24,
          lastNBits 24 3, lastNBits 26 3)) = some (0, 0, 3, 0, 2) := by
  decide

/-- C5: a freshly constructed table has the claimed geometry (global
depth 0, one-slot directory, a single empty bucket of local depth 0), but
`GetNumBuckets` returns 2 on it — the member initialiser sets
`numBuckets = 1` and the constructor increments it again — while the
directory references exactly 1 distinct bucket; after the three-key split
scenario of `BasicDepthTest` it returns 5 while 4 distinct buckets are
referenced (the repository's own test expects 4). -/
theorem eh_numBuckets_miscount_C5 :
    ehGetNumBuckets (ehNew 2) = 2 ∧
    ehDistinctBuckets (ehNew 2) = 1 ∧
    ehGetGlobalDepth (ehNew 2) = 0 ∧
    (ehNew 2).dir.length = 1 ∧
    (ehNew 2).buckets = [⟨[], [], 0⟩] ∧
    (ehRun id 100 2 [(6, 0), (10, 1), (14, 2)]).map
        (fun s => (ehGetNumBuckets s, ehDistinctBuckets s)) = some (5, 4) := by
  decide

/-! ### C6: degenerate hash collisions

With more than `bucket_size` keys of identical full hash value, the spec
mandates a fatal error.  The code has no such check: every pass through
the `check:` loop doubles the directory and re-splits the key's bucket
without ever moving a record or aborting.  We prove the loop returns
`none` (does not complete) for EVERY fuel bound: the bucket seated at
directory slot 0 permanently holds the old key, its depth tracks the
global depth, and each iteration reproduces that configuration one level
deeper. -/

theorem ehSplitStep_collision (st : EH)
    (hb : st.buckets.getD (st.dir.getD 0 0) default = ⟨[1], [0], st.globalDepth⟩) :
    ehSplitStep (fun _ => 0) st 2 =
      ({ bucketSize := st.bucketSize,
         globalDepth := st.globalDepth + 1,
         numBuckets := st.numBuckets + 1,
         sizeField := st.sizeField,
         buckets := ((st.buckets.set (st.dir.getD 0 0)
              ⟨[1], [0], st.globalDepth + 1⟩ ++
              [EHBucket.mk [] [] (st.globalDepth + 1)]).set
              (st.dir.getD 0 0) ⟨[1], [0], st.globalDepth + 1⟩).set
              st.buckets.length ⟨[], [], st.globalDepth + 1⟩,
         dir := (st.dir ++ st.dir).set (2 ^ st.globalDepth) st.buckets.length },
       none) := by
  have hbidx : ehBucketIdxOf (fun _ => 0) st 2 = st.dir.getD 0 0 := by
    simp [ehBucketIdxOf, lastNBits]
  rw [ehSplitStep, hbidx, hb]
  simp [lastNBits, testBitN, Nat.sub_self, Nat.zero_mul,
    show List.range 1 = [0] from rfl]

theorem ehInsertLoop_collision_none (v : Nat) :
    ∀ (fuel : Nat) (st : EH), st.bucketSize = 1 →
      st.dir.length = 2 ^ st.globalDepth →
      st.dir.getD 0 0 < st.buckets.length →
      st.buckets.getD (st.dir.getD 0 0) default = ⟨[1], [0], st.globalDepth⟩ →
      ehInsertLoop (fun _ => 0) fuel st 2 v = none := by
  intro fuel
  induction fuel with
  | zero => intro st _ _ _ _; rfl
  | succ n ih =>
    intro st hbs hdl hlt hb
    have hbidx : ehBucketIdxOf (fun _ => 0) st 2 = st.dir.getD 0 0 := by
      simp [ehBucketIdxOf, lastNBits]
    have hpow : 0 < 2 ^ st.globalDepth := Nat.pos_pow_of_pos _ (by norm_num)
    simp only [ehInsertLoop, hbidx, hb, ehSplitStep_collision st hb]
    rw [hbs]
    rw [if_pos (show ([1] : List Nat).length = 1 from rfl)]
    have hdir0 : ((st.dir ++ st.dir).set (2 ^ st.globalDepth)
        st.buckets.length).getD 0 0 = st.dir.getD 0 0 := by
      rw [getD_set_ne _ _ _ _ _ hpow.ne', getD_append_left _ _ _ _ (hdl ▸ hpow)]
    refine ih _ rfl ?_ ?_ ?_
    · rw [List.length_set, List.length_append, hdl, pow_succ, mul_two]
    · rw [hdir0]
      simp only [List.length_set, List.length_append, List.length_cons,
        List.length_nil]
      omega
    · rw [hdir0, getD_set_ne _ _ _ _ _ (ne_of_gt hlt), getD_set_self]
      simp only [List.length_set, List.length_append, List.length_cons,
        List.length_nil]
      omega

/-- The table state after inserting key 1 (value 0) with constant-0 hash
into a freshly constructed table of bucket capacity 1. -/
def ehCollisionState : EH :=
  { bucketSize := 1, globalDepth := 0, numBuckets := 2, sizeField := 0,
    buckets := [⟨[1], [0], 0⟩], dir := [0] }

/-- C6: in the degenerate case (two distinct keys, identical full hash,
`bucket_size = 1`, so strictly more than `bucket_size` keys share the
hash) the code does NOT raise a fatal error: the `goto check` loop runs
forever.  Formally, after inserting key 1 into a fresh table (bucket
capacity 1, hash constantly 0), inserting key 2 fails to complete for
every fuel bound on the split loop. -/
theorem eh_insert_collision_diverges_C6 :
    ∀ fuel : Nat,
      (ehInsert (fun _ => 0) 10 (ehNew 1) 1 0).bind
        (fun st => ehInsert (fun _ => 0) fuel st 2 0) = none := by
  intro fuel
  have h1 : ehInsert (fun _ => 0) 10 (ehNew 1) 1 0 = some ehCollisionState := by
    decide
  rw [h1]
  show ehInsert (fun _ => 0) fuel ehCollisionState 2 0 = none
  have h2 : ehExists (fun _ => 0) ehCollisionState 2 0 =
      (false, ehCollisionState) := by decide
  rw [ehInsert, h2]
  exact ehInsertLoop_collision_none 0 fuel _ rfl rfl (by decide) rfl

/-! ## Buffer pool manager (`src/buffer/buffer_pool_manager.cpp`)

The page table field models `ExtendibleHash<page_id_t, Page *>` at the
mapping level (an association list from page id to frame index), together
with the `size` member that `GetSize` returns; `ExtendibleHash::Insert`
and `Remove` never update that member, so neither do `ptInsert` and
`ptRemove`.  The replacer is the LRU list model above, over frame
indices.  The disk manager (external, `src/disk/disk_manager.h` is not
part of the sources) follows the spec contract: `AllocatePage` returns
consecutive fresh ids, `ReadPage`/`WritePage` move one page image,
`DeallocatePage` releases an id (logged here so theorems can observe the
call). -/

/-- `INVALID_PAGE_ID` (the spec's sentinel, e.g. −1). -/
def INVALID_PAGE_ID : Int := -1

/-- One frame (`class Page`): current page id, pin count, dirty flag, and
the `PAGE_SIZE`-byte image as an opaque blob (`0` = zeroed). -/
structure Page where
  page_id : Int
  pin_count : Int
  is_dirty : Bool
  data : Nat
  deriving DecidableEq, Repr, Inhabited

/-- Modelled from the spec: the external disk manager's observable state
(page images, next fresh id, and the ids it was asked to deallocate). -/
structure Disk where
  store : List (Int × Nat)
  nextId : Int
  deallocLog : List Int
  deriving DecidableEq, Repr, Inhabited

/-- `DiskManager::ReadPage` (never-written pages read as zeroes). -/
def diskRead (d : Disk) (pid : Int) : Nat :=
  match d.store.find? (fun e => e.1 = pid) with
  | some e => e.2
  | none => 0

/-- `DiskManager::WritePage`. -/
def diskWrite (d : Disk) (pid : Int) (blob : Nat) : Disk :=
  { d with store :=
      if d.store.any (fun e => e.1 = pid) then
        d.store.map (fun e => if e.1 = pid then (pid, blob) else e)
      else d.store ++ [(pid, blob)] }

/-- `DiskManager::AllocatePage`: consecutive fresh ids. -/
def diskAlloc (d : Disk) : Int × Disk :=
  (d.nextId, { d with nextId := d.nextId + 1 })

/-- `DiskManager::DeallocatePage` (observable only through the log). -/
def diskDealloc (d : Disk) (pid : Int) : Disk :=
  { d with deallocLog := d.deallocLog ++ [pid] }

/-- The page table: `ExtendibleHash<page_id_t, Page *>` as a mapping from
page id to frame index, plus the `size` member behind `GetSize`. -/
structure PTable where
  entries : List (Int × Nat)
  sizeField : Nat
  deriving DecidableEq, Repr, Inhabited

/-- `HashTable::Find`. -/
def ptFind (pt : PTable) (pid : Int) : Option Nat :=
  (pt.entries.find? (fun e => e.1 = pid)).map (fun e => e.2)

/-- `HashTable::Insert` (overwrite on duplicate key; the `size` member is
not updated, as in `ExtendibleHash::Insert`). -/
def ptInsert (pt : PTable) (pid : Int) (f : Nat) : PTable :=
  if pt.entries.any (fun e => e.1 = pid) then
    { pt with entries := pt.entries.map (fun e => if e.1 = pid then (pid, f) else e) }
  else
    { pt with entries := pt.entries ++ [(pid, f)] }

/-- `HashTable::Remove` (the `size` member is not updated, as in
`ExtendibleHash::Remove`). -/
def ptRemove (pt : PTable) (pid : Int) : Bool × PTable :=
  if pt.entries.any (fun e => e.1 = pid) then
    (true, { pt with entries := pt.entries.filter (fun e => e.1 ≠ pid) })
  else (false, pt)

/-- `ExtendibleHash::GetSize`: returns the `size` member. -/
def ptGetSize (pt : PTable) : Nat := pt.sizeField

/-- The buffer pool: frame array, page table, LRU replacer (list of frame
indices, front = most recent), free list, disk handle. -/
structure BP where
  pool_size : Nat
  pages : List Page
  pageTable : PTable
  replacer : List Nat
  freeList : List Nat
  disk : Disk
  deriving DecidableEq, Repr, Inhabited

/-- `BufferPoolManager::BufferPoolManager`: zero-initialised frames, all
frames pushed onto the free list in order, empty table and replacer. -/
def initBP (n : Nat) : BP :=
  { pool_size := n,
    pages := List.replicate n ⟨INVALID_PAGE_ID, 0, false, 0⟩,
    pageTable := ⟨[], 0⟩,
    replacer := [],
    freeList := List.range n,
    disk := ⟨[], 0, []⟩ }

/-- `BufferPoolManager::IsAllPinned` as implemented: returns `false` as
soon as some frame has `pin_count != 0` (so it is true exactly when every
pin count is zero). -/
def isAllPinned (s : BP) : Bool :=
  s.pages.all (fun p => p.pin_count = 0)

/-- `BufferPoolManager::GetVictimPage`.  `none` = an assert failed.  The
free list is preferred; its front is asserted clean/unpinned/empty.  On
the replacer path the code asserts `!is_dirty_`, `pin_count_ == 0` AND
`page_id_ == INVALID_PAGE_ID` on the popped victim *before* its
write-back/unmap block, and in the all-pinned branch it asserts
`IsAllPinned()` (which, as implemented, checks that every frame is
UNpinned). -/
def getVictimPage (s : BP) : Option (Option Nat × BP) :=
  match s.freeList with
  | f :: rest =>
    match s.pages.get? f with
    | none => none
    | some pg =>
      if pg.is_dirty = false ∧ pg.pin_count = 0 ∧ pg.page_id = INVALID_PAGE_ID then
        some (some f, { s with freeList := rest })
      else none
  | [] =>
    if s.replacer.length ≠ 0 then
      match lruVictim s.replacer with
      | none => none
      | some (f, rep') =>
        match s.pages.get? f with
        | none => none
        | some pg =>
          if pg.is_dirty = false ∧ pg.pin_count = 0 ∧ pg.page_id = INVALID_PAGE_ID then
            let d' := if pg.is_dirty then diskWrite s.disk pg.page_id pg.data
                      else s.disk
            let pt' := (ptRemove s.pageTable pg.page_id).2
            let pg' := { pg with page_id := INVALID_PAGE_ID, data := 0 }
            let s' := { s with replacer := rep', disk := d', pageTable := pt',
                               pages := s.pages.set f pg' }
            some (some f, s')
          else none
    else
      if isAllPinned s then some (none, s) else none

/-- `BufferPoolManager::FetchPage`.  `none` = an assert failed (including
the entry assert `page_id != INVALID_PAGE_ID`); `some (none, s)` = the
C++ `nullptr` return; frame pointers are frame indices. -/
def fetchPage (s : BP) (pid : Int) : Option (Option Nat × BP) :=
  if pid = INVALID_PAGE_ID then none
  else
    match ptFind s.pageTable pid with
    | some f =>
      match s.pages.get? f with
      | none => none
      | some pg =>
        if pg.pin_count = 0 then
          match lruErase s.replacer f with
          | (true, rep') =>
            let pg1 := { pg with pin_count := pg.pin_count + 1 }
            some (some f, { s with replacer := rep', pages := s.pages.set f pg1 })
          | (false, _) => none
        else
          some (some f,
            { s with pages := s.pages.set f { pg with pin_count := pg.pin_count + 1 } })
    | none =>
      match getVictimPage s with
      | none => none
      | some (none, s1) => some (none, s1)
      | some (some f, s1) =>
        match s1.pages.get? f with
        | none => none
        | some pg =>
          if pg.is_dirty = false ∧ pg.pin_count = 0 ∧ pg.page_id = INVALID_PAGE_ID then
            let pg1 := { pg with page_id := pid, pin_count := 1 }
            let s2 := { s1 with pages := s1.pages.set f pg1,
                                pageTable := ptInsert s1.pageTable pid f }
            let pg2 := { pg1 with data := diskRead s2.disk pid }
            some (some f, { s2 with pages := s2.pages.set f pg2 })
          else none

/-- `BufferPoolManager::UnpinPage`.  The `assert(!replacer_->Erase(page))`
in the positive-pin path executes the `Erase` inside the assert: the model
aborts when that erase would succeed.  (The case where the page table maps
`pid` to an index outside the frame array corresponds to a wild `Page *`
and is modelled as an abort; it is unreachable from well-formed states.) -/
def unpinPage (s : BP) (pid : Int) (isDirty : Bool) : Option (Bool × BP) :=
  if pid = INVALID_PAGE_ID then none
  else
    match ptFind s.pageTable pid with
    | none => some (false, s)
    | some f =>
      match s.pages.get? f with
      | none => none
      | some pg =>
        if pg.pin_count ≤ 0 then some (false, s)
        else
          match lruErase s.replacer f with
          | (true, _) => none
          | (false, _) =>
            let pg1 := { pg with is_dirty := pg.is_dirty || isDirty,
                                 pin_count := pg.pin_count - 1 }
            let s1 := { s with pages := s.pages.set f pg1 }
            if pg1.pin_count = 0 then
              some (true, { s1 with replacer := lruInsert s1.replacer f })
            else some (true, s1)

/-- `BufferPoolManager::FlushPage`: entry assert on `INVALID_PAGE_ID`;
`false` when non-resident; write back and clear the flag when dirty. -/
def flushPage (s : BP) (pid : Int) : Option (Bool × BP) :=
  if pid = INVALID_PAGE_ID then none
  else
    match ptFind s.pageTable pid with
    | none => some (false, s)
    | some f =>
      match s.pages.get? f with
      | none => none
      | some pg =>
        if pg.is_dirty then
          let s1 := { s with disk := diskWrite s.disk pid pg.data,
                             pages := s.pages.set f { pg with is_dirty := false } }
          some (true, s1)
        else some (true, s)

/-- `BufferPoolManager::FlushAllPages`: calls `FlushPage(pages_[i].page_id_)`
for every frame `i`, asserting the result is `true` and that the frame is
clean afterwards.  (In the C++ code each inner `FlushPage` also re-locks
the pool latch the caller already holds — a self-deadlock on the
non-recursive `std::shared_mutex`; the latch is erased here.) -/
def flushAllPages (s : BP) : Option BP :=
  (List.range s.pool_size).foldl
    (fun acc i => acc.bind fun st =>
      match st.pages.get? i with
      | none => none
      | some pg =>
        match flushPage st pg.page_id with
        | none => none
        | some (res, st1) =>
          if res = false then none
          else
            match st1.pages.get? i with
            | none => none
            | some pg1 => if pg1.is_dirty then none else some st1)
    (some s)

/-- `BufferPoolManager::NewPage`: victim, allocate id, set metadata,
insert into the table.  `some (none, s)` is the `nullptr` return with the
out-parameter set to `INVALID_PAGE_ID`; on success the allocated id and
the frame index are returned. -/
def newPage (s : BP) : Option (Option (Int × Nat) × BP) :=
  match getVictimPage s with
  | none => none
  | some (none, s1) => some (none, s1)
  | some (some f, s1) =>
    match s1.pages.get? f with
    | none => none
    | some pg =>
      if pg.is_dirty = false ∧ pg.pin_count = 0 ∧ pg.page_id = INVALID_PAGE_ID then
        let a := diskAlloc s1.disk
        let pg1 := { pg with page_id := a.1, pin_count := 1 }
        let s2 := { s1 with disk := a.2, pages := s1.pages.set f pg1,
                            pageTable := ptInsert s1.pageTable a.1 f }
        some (some (a.1, f), s2)
      else none

/-- `BufferPoolManager::DeletePage`. -/
def deletePage (s : BP) (pid : Int) : Option (Bool × BP) :=
  if pid = INVALID_PAGE_ID then none
  else
    match ptFind s.pageTable pid with
    | some f =>
      match s.pages.get? f with
      | none => none
      | some pg =>
        if pg.pin_count ≠ 0 then some (false, s)
        else
          match ptRemove s.pageTable pid with
          | (false, _) => none
          | (true, pt1) =>
            match lruErase s.replacer f with
            | (false, _) => none
            | (true, rep1) =>
              let pg1 := { pg with data := 0, is_dirty := false,
                                   page_id := INVALID_PAGE_ID }
              let s1 := { s with pageTable := pt1, replacer := rep1,
                                 pages := s.pages.set f pg1,
                                 disk := diskDealloc s.disk pid,
                                 freeList := s.freeList ++ [f] }
              some (true, s1)
    | none => some (true, { s with disk := diskDealloc s.disk pid })

/-- `BufferPoolManager::GetPageTableSize` (test helper): the page table's
`GetSize`. -/
def getPageTableSize (s : BP) : Nat := ptGetSize s.pageTable

/-- `BufferPoolManager::GetReplacerSize` (test helper). -/
def getReplacerSize (s : BP) : Nat := lruSize s.replacer

/-- `BufferPoolManager::FindInBuffer` (test helper). -/
def findInBuffer (s : BP) (pid : Int) : Bool := (ptFind s.pageTable pid).isSome

/-- Well-formedness of a pool state, as maintained between public calls:
page-table entries name in-range frames and valid page ids, table keys
are unique, every replacer member is an in-range frame with pin count 0,
and every resident frame with pin count 0 is in the replacer. -/
def WF (s : BP) : Prop :=
  (∀ e ∈ s.pageTable.entries, e.2 < s.pages.length ∧ e.1 ≠ INVALID_PAGE_ID) ∧
  (s.pageTable.entries.map Prod.fst).Nodup ∧
  (∀ f ∈ s.replacer, f < s.pages.length ∧ (s.pages.getD f default).pin_count = 0) ∧
  (∀ e ∈ s.pageTable.entries, (s.pages.getD e.2 default).pin_count = 0 →
    e.2 ∈ s.replacer)

instance (s : BP) : Decidable (WF s) := by
  unfold WF
  infer_instance

/-- C1: `FetchPage` on a non-resident page with the victim taken from the
replacer does not behave as claimed.  Pool of 1: `NewPage` produces page 0
pinned in frame 0; `UnpinPage(0, true)` leaves frame 0 dirty and in the
replacer; `FetchPage(1)` must evict it — the code asserts the replacer
victim satisfies `!is_dirty_` and `page_id_ == INVALID_PAGE_ID`, which a
resident (let alone dirty) victim never does, so the call aborts.  (With
asserts compiled out, the write-back happens but nothing ever clears
`is_dirty_`: neither `GetVictimPage` nor `FetchPage` assigns
`is_dirty_ = false`, contradicting the claimed "dirty flag cleared /
dirty flag false" postcondition.) -/
theorem fetchPage_dirty_eviction_C1 :
    (newPage (initBP 1)).map
        (fun r => (r.1, r.2.pageTable.entries, r.2.freeList)) =
      some (some (0, 0), [(0, 0)], []) ∧
    ((newPage (initBP 1)).bind (fun r => unpinPage r.2 0 true)).map
        (fun r => (r.1, (r.2.pages.getD 0 default).is_dirty, r.2.replacer)) =
      some (true, true, [0]) ∧
    ((newPage (initBP 1)).bind (fun r => unpinPage r.2 0 true)).bind
        (fun r => fetchPage r.2 1) = none := by
  refine ⟨by decide, by decide, by decide⟩

/-- C3: `FlushAllPages` does not complete normally when some frame is
free: it calls `FlushPage(pages_[i].page_id_)` on every frame, and
`FlushPage` asserts `page_id != INVALID_PAGE_ID`, which a free frame
violates — a freshly constructed pool of 1 aborts.  Once the only frame
is resident (after one `NewPage`) the same call completes. -/
theorem flushAllPages_free_frame_C3 :
    flushAllPages (initBP 1) = none ∧
    ((newPage (initBP 1)).bind (fun r => flushAllPages r.2)).isSome = true := by
  refine ⟨by decide, by decide⟩

/-- C4: after one `NewPage` on a pool of 10, the free list plus page
table do account for all 10 frames (1 entry, 9 free frames), but
`GetPageTableSize` returns 0, not the entry count: it reads the hash
table's `size` member, which `ExtendibleHash::Insert`/`Remove` never
update.  (The repository's own test asserts it returns 1 here.) -/
theorem getPageTableSize_stale_C4 :
    (newPage (initBP 10)).map
        (fun r => (getPageTableSize r.2, r.2.pageTable.entries.length,
          r.2.freeList.length + r.2.pageTable.entries.length)) =
      some (0, 1, 10) := by decide

theorem ptFind_entry (pt : PTable) (pid : Int) (f : Nat)
    (h : ptFind pt pid = some f) :
    ∃ e ∈ pt.entries, e.1 = pid ∧ e.2 = f := by
  rw [ptFind] at h
  rcases hfe : pt.entries.find? (fun e => decide (e.1 = pid)) with _ | e
  · rw [hfe] at h; simp at h
  · rw [hfe] at h
    simp only [Option.map_some', Option.some.injEq] at h
    refine ⟨e, List.mem_of_find?_eq_some hfe, ?_, h⟩
    have := List.find?_some hfe
    simpa using this

/-- C10: `FetchPage` on a resident page (page-table hit) only increments
that frame's pin count, removes the frame from the replacer exactly when
the pin count was zero, and returns the mapped frame; the frame's other
fields, all other frames, the page table, free list and disk state are
untouched (in particular no disk I/O happens). -/
theorem fetchPage_hit_C10 (s : BP) (pid : Int) (f : Nat) (pg : Page)
    (hWF : WF s)
    (hfind : ptFind s.pageTable pid = some f)
    (hpg : s.pages.get? f = some pg) :
    fetchPage s pid =
      some (some f,
        { s with pages := s.pages.set f { pg with pin_count := pg.pin_count + 1 },
                 replacer := if pg.pin_count = 0 then s.replacer.erase f
                             else s.replacer }) := by
  obtain ⟨hWF1, hWF2, hWF3, hWF4⟩ := hWF
  obtain ⟨e, hemem, he1, he2⟩ := ptFind_entry _ _ _ hfind
  have hpid : pid ≠ INVALID_PAGE_ID := he1 ▸ (hWF1 e hemem).2
  have hgetD : s.pages.getD f default = pg := by
    rw [List.getD_eq_getElem?_getD, ← List.get?_eq_getElem?, hpg]
    rfl
  rw [fetchPage, if_neg hpid, hfind]
  by_cases hpin : pg.pin_count = 0
  · have hf : f ∈ s.replacer := by
      have := hWF4 e hemem
      rw [he2] at this
      exact this (hgetD ▸ hpin)
    simp only [hpg, hpin, if_pos rfl, lruErase, if_pos hf]
    simp
  · simp only [hpg, if_neg hpin]

/-- C7: `UnpinPage(pid, is_dirty)` (for a valid page id) returns `false`
leaving the pool unchanged when the page is not resident or its pin count
is already ≤ 0; otherwise it ORs the dirty flag, decrements the pin
count, inserts the frame into the replacer exactly when the count reaches
0, and returns `true`. -/
theorem unpinPage_C7 (s : BP) (pid : Int) (d : Bool)
    (hWF : WF s) (hpid : pid ≠ INVALID_PAGE_ID) :
    (ptFind s.pageTable pid = none → unpinPage s pid d = some (false, s)) ∧
    (∀ f pg, ptFind s.pageTable pid = some f → s.pages.get? f = some pg →
      (pg.pin_count ≤ 0 → unpinPage s pid d = some (false, s)) ∧
      (0 < pg.pin_count →
        unpinPage s pid d = some (true,
          { s with
            pages := s.pages.set f
              { pg with is_dirty := pg.is_dirty || d,
                        pin_count := pg.pin_count - 1 },
            replacer := if pg.pin_count - 1 = 0 then lruInsert s.replacer f
                        else s.replacer }))) := by
  obtain ⟨hWF1, hWF2, hWF3, hWF4⟩ := hWF
  constructor
  · intro hnone
    rw [unpinPage, if_neg hpid, hnone]
  · intro f pg hfind hpg
    have hgetD : s.pages.getD f default = pg := by
      rw [List.getD_eq_getElem?_getD, ← List.get?_eq_getElem?, hpg]
      rfl
    constructor
    · intro hle
      rw [unpinPage, if_neg hpid, hfind]
      simp only [hpg, if_pos hle]
    · intro hgt
      have hne : ¬ pg.pin_count ≤ 0 := not_le.2 hgt
      have hnotmem : f ∉ s.replacer := by
        intro hf
        have := (hWF3 f hf).2
        rw [hgetD] at this
        omega
      rw [unpinPage, if_neg hpid, hfind]
      simp only [hpg, if_neg hne, lruErase, if_neg hnotmem]
      by_cases hz : pg.pin_count - 1 = 0
      · simp [hz]
      · simp [hz]

/-- C8: `DeletePage(pid)` (for a valid page id) returns `false` leaving
the pool unchanged on a resident pinned page; on a resident unpinned page
it unmaps the page, removes the frame from the replacer, resets the
frame (id `INVALID`, clean, zeroed), pushes it on the free list, asks the
disk manager to deallocate, and returns `true`; on a non-resident page it
only asks the disk manager to deallocate and returns `true`. -/
theorem deletePage_C8 (s : BP) (pid : Int)
    (hWF : WF s) (hpid : pid ≠ INVALID_PAGE_ID) :
    (ptFind s.pageTable pid = none →
      deletePage s pid = some (true, { s with disk := diskDealloc s.disk pid })) ∧
    (∀ f pg, ptFind s.pageTable pid = some f → s.pages.get? f = some pg →
      (pg.pin_count ≠ 0 → deletePage s pid = some (false, s)) ∧
      (pg.pin_count = 0 →
        deletePage s pid = some (true,
          { s with
            pageTable := ⟨s.pageTable.entries.filter (fun e => e.1 ≠ pid),
                          s.pageTable.sizeField⟩,
            replacer := s.replacer.erase f,
            pages := s.pages.set f { pg with data := 0, is_dirty := false,
                                             page_id := INVALID_PAGE_ID },
            disk := diskDealloc s.disk pid,
            freeList := s.freeList ++ [f] }))) := by
  obtain ⟨hWF1, hWF2, hWF3, hWF4⟩ := hWF
  constructor
  · intro hnone
    rw [deletePage, if_neg hpid, hnone]
  · intro f pg hfind hpg
    obtain ⟨e, hemem, he1, he2⟩ := ptFind_entry _ _ _ hfind
    have hgetD : s.pages.getD f default = pg := by
      rw [List.getD_eq_getElem?_getD, ← List.get?_eq_getElem?, hpg]
      rfl
    constructor
    · intro hne
      rw [deletePage, if_neg hpid, hfind]
      simp only [hpg, if_pos hne]
    · intro hz
      have hmem : f ∈ s.replacer := by
        have := hWF4 e hemem
        rw [he2] at this
        exact this (hgetD ▸ hz)
      have hany : s.pageTable.entries.any (fun e => decide (e.1 = pid)) = true :=
        List.any_eq_true.2 ⟨e, hemem, by simp [he1]⟩
      rw [deletePage, if_neg hpid, hfind]
      simp only [hpg, hz, if_neg (show ¬ (0 : Int) ≠ 0 from by simp),
        ptRemove, if_pos hany, lruErase, if_pos hmem]

/-- A small well-formed pool: page 5 resident in frame 0 with pin count 0
(hence in the replacer), frame 1 free. -/
def wfResident : BP :=
  { pool_size := 2,
    pages := [⟨5, 0, false, 7⟩, ⟨INVALID_PAGE_ID, 0, false, 0⟩],
    pageTable := ⟨[(5, 0)], 0⟩,
    replacer := [0],
    freeList := [1],
    disk := ⟨[], 6, []⟩ }

/-- Like `wfResident` but page 5 is pinned once (so not in the replacer). -/
def wfPinned : BP :=
  { pool_size := 2,
    pages := [⟨5, 1, false, 7⟩, ⟨INVALID_PAGE_ID, 0, false, 0⟩],
    pageTable := ⟨[(5, 0)], 0⟩,
    replacer := [],
    freeList := [1],
    disk := ⟨[], 6, []⟩ }

theorem fetchPage_hit_C10_witness :
    fetchPage wfResident 5 =
      some (some 0,
        { pool_size := 2,
          pages := [⟨5, 1, false, 7⟩, ⟨INVALID_PAGE_ID, 0, false, 0⟩],
          pageTable := ⟨[(5, 0)], 0⟩,
          replacer := [],
          freeList := [1],
          disk := ⟨[], 6, []⟩ }) :=
  (fetchPage_hit_C10 wfResident 5 0 ⟨5, 0, false, 7⟩ (by decide) (by decide)
    (by decide)).trans (by decide)

theorem unpinPage_C7_witness :
    unpinPage wfPinned 5 true =
      some (true,
        { pool_size := 2,
          pages := [⟨5, 0, true, 7⟩, ⟨INVALID_PAGE_ID, 0, false, 0⟩],
          pageTable := ⟨[(5, 0)], 0⟩,
          replacer := [0],
          freeList := [1],
          disk := ⟨[], 6, []⟩ }) :=
  (((unpinPage_C7 wfPinned 5 true (by decide) (by decide)).2 0 ⟨5, 1, false, 7⟩
    (by decide) (by decide)).2 (by decide)).trans (by decide)

theorem deletePage_C8_witness :
    deletePage wfResident 5 =
      some (true,
        { pool_size := 2,
          pages := [⟨INVALID_PAGE_ID, 0, false, 0⟩, ⟨INVALID_PAGE_ID, 0, false, 0⟩],
          pageTable := ⟨[], 0⟩,
          replacer := [],
          freeList := [1, 0],
          disk := ⟨[], 6, [5]⟩ }) :=
  (((deletePage_C8 wfResident 5 (by decide) (by decide)).2 0 ⟨5, 0, false, 7⟩
    (by decide) (by decide)).2 (by decide)).trans (by decide)

end CMUDB
